import Mathlib

/-!
Shallow embedding of the asimov `protos` getheaders/getblocks message codec
(`src/protos/msggetheaders.go`): the `MsgGetHeaders` and `MsgGetBlocks`
locator-request models, their `AddBlockLocatorHash` mutator, the
`VVSEncode`/`VVSDecode` wire codec and `MaxPayloadLength`, together with
theorems settling the frozen claims about them.

Byte streams are `List Nat` (each element one byte).  Readers are
state-passing functions returning `Except CodecError (value × rest)`;
failures of the underlying stream are the `streamFailure` error, protocol
violations are `messageError` carrying the reporting function's name and a
description, mirroring the Go `messageError(f, str)` values.

The serialization primitives (`ReadUint32`, `ReadVarInt`, `ReadNBytes`,
their write counterparts and `MaxVarIntPayload`) live in the repository's
`common/serialization` package, which is not under `src/`; they are
modelled from the spec where noted.
-/

namespace Protos

set_option autoImplicit false
set_option linter.unusedVariables false

/-- Modelled from the spec: `common.HashLength` — hash values are exactly 32 bytes. -/
def HashLength : Nat := 32

/-- MaxBlockLocatorsPerMsg is the maximum number of block locator hashes allowed
per message (500, from the source). -/
def MaxBlockLocatorsPerMsg : Nat := 500

/-- A hash value: a list of bytes.  Well-formed hashes have exactly
`HashLength` bytes, each below 256 (see `isHash`). -/
abbrev Hash := List Nat

/-- The plain all-zero hash (the zero value of `common.Hash` in Go). -/
def zeroHash : Hash := List.replicate HashLength 0

/-- A hash is exactly 32 bytes, each a byte value. -/
def isHash (h : Hash) : Prop := h.length = HashLength ∧ ∀ b ∈ h, b < 256

instance (h : Hash) : Decidable (isHash h) := by
  unfold isHash; infer_instance

/-- Errors of the codec: `messageError f description` mirrors the Go
`messageError` (a protocol violation reported by function `f`);
`streamFailure` stands for any underlying I/O read/write error,
truncation included. -/
inductive CodecError where
  | messageError (f : String) (description : String)
  | streamFailure
deriving DecidableEq, Repr

/-- The description string of the count-check protocol violation
(`"too many block locator hashes for message [count %v, max %v]"`). -/
def tooManyCountStr (count : Nat) : String :=
  "too many block locator hashes for message [count " ++ toString count ++
    ", max " ++ toString MaxBlockLocatorsPerMsg ++ "]"

/-- The description string of the mutator's protocol violation
(`"too many block locator hashes for message [max %v]"`). -/
def tooManyAddStr : String :=
  "too many block locator hashes for message [max " ++
    toString MaxBlockLocatorsPerMsg ++ "]"

/-- Value of a little-endian byte list. -/
def leVal : List Nat → Nat
  | [] => 0
  | b :: t => b + 256 * leVal t

/-- Little-endian byte list of width `w` for value `v`. -/
def leBytes : Nat → Nat → List Nat
  | 0, _ => []
  | w + 1, v => v % 256 :: leBytes w (v / 256)

/-- Modelled from the spec: `serialization.ReadNBytes` reads exactly `n`
bytes from the stream; a short read is an I/O failure. -/
def readNBytes (n : Nat) (s : List Nat) : Except CodecError (List Nat × List Nat) :=
  if n ≤ s.length then .ok (s.take n, s.drop n) else .error .streamFailure

/-- Modelled from the spec: `serialization.ReadUint32` reads a 4-byte
little-endian unsigned integer. -/
def readUint32 (s : List Nat) : Except CodecError (Nat × List Nat) :=
  match readNBytes 4 s with
  | .error e => .error e
  | .ok (bs, rest) => .ok (leVal bs, rest)

/-- Modelled from the spec: `serialization.ReadVarInt` reads a CompactSize
integer — a discriminant byte below `0xfd` is the value itself; `0xfd`,
`0xfe`, `0xff` announce a 2-, 4- or 8-byte little-endian value. -/
def readVarInt (s : List Nat) : Except CodecError (Nat × List Nat) :=
  match s with
  | [] => .error .streamFailure
  | d :: rest =>
    if d = 0xff then
      match readNBytes 8 rest with
      | .error e => .error e
      | .ok (bs, r) => .ok (leVal bs, r)
    else if d = 0xfe then
      match readNBytes 4 rest with
      | .error e => .error e
      | .ok (bs, r) => .ok (leVal bs, r)
    else if d = 0xfd then
      match readNBytes 2 rest with
      | .error e => .error e
      | .ok (bs, r) => .ok (leVal bs, r)
    else
      .ok (d, rest)

/-- Modelled from the spec: `serialization.WriteUint32` writes a 4-byte
little-endian unsigned integer. -/
def writeUint32 (v : Nat) : List Nat := leBytes 4 v

/-- Modelled from the spec: `serialization.WriteVarInt` writes a CompactSize
integer — values below `0xfd` as one byte, values up to `0xffff` as `0xfd`
plus 2 bytes, values up to `0xffffffff` as `0xfe` plus 4 bytes, larger
values as `0xff` plus 8 bytes, all little-endian. -/
def writeVarInt (v : Nat) : List Nat :=
  if v < 0xfd then [v]
  else if v ≤ 0xffff then 0xfd :: leBytes 2 v
  else if v ≤ 0xffffffff then 0xfe :: leBytes 4 v
  else 0xff :: leBytes 8 v

/-- Modelled from the spec: `serialization.MaxVarIntPayload`, the worst-case
CompactSize width for the variant's maximum count. -/
def MaxVarIntPayload : Nat := (writeVarInt MaxBlockLocatorsPerMsg).length

/-- MsgGetHeaders represents the getheaders message: protocol version,
ordered block locator hashes and a stop hash (`src/protos/msggetheaders.go`). -/
structure MsgGetHeaders where
  ProtocolVersion : Nat
  BlockLocatorHashes : List Hash
  HashStop : Hash
deriving DecidableEq, Repr

/-- AddBlockLocatorHash adds a new block locator hash to the message,
failing when the post-append length would exceed `MaxBlockLocatorsPerMsg`. -/
def MsgGetHeaders.AddBlockLocatorHash (msg : MsgGetHeaders) (hash : Hash) :
    Except CodecError MsgGetHeaders :=
  if msg.BlockLocatorHashes.length + 1 > MaxBlockLocatorsPerMsg then
    .error (.messageError "MsgGetHeaders.AddBlockLocatorHash" tooManyAddStr)
  else
    .ok { msg with BlockLocatorHashes := msg.BlockLocatorHashes ++ [hash] }

/-- The decode loop of `MsgGetHeaders.VVSDecode`: for each of the `n`
declared slots, read exactly 32 bytes and append them through
`AddBlockLocatorHash`. -/
def MsgGetHeaders.decodeLoop (msg : MsgGetHeaders) (n : Nat) (s : List Nat) :
    Except CodecError (MsgGetHeaders × List Nat) :=
  match n with
  | 0 => .ok (msg, s)
  | m + 1 =>
    match readNBytes HashLength s with
    | .error e => .error e
    | .ok (h, s1) =>
      match msg.AddBlockLocatorHash h with
      | .error e => .error e
      | .ok msg1 => MsgGetHeaders.decodeLoop msg1 m s1

/-- VVSDecode decodes the stream into the receiver: 4-byte version,
CompactSize count (checked against the maximum before anything is sized by
it), `count` 32-byte locator hashes, 32-byte stop hash. -/
def MsgGetHeaders.VVSDecode (msg : MsgGetHeaders) (pver : Nat) (s : List Nat) :
    Except CodecError (MsgGetHeaders × List Nat) :=
  match readUint32 s with
  | .error e => .error e
  | .ok (pv, s1) =>
    match readVarInt s1 with
    | .error e => .error e
    | .ok (count, s2) =>
      if count > MaxBlockLocatorsPerMsg then
        .error (.messageError "MsgGetHeaders.VVSDecode" (tooManyCountStr count))
      else
        match MsgGetHeaders.decodeLoop
            { msg with ProtocolVersion := pv, BlockLocatorHashes := [] } count s2 with
        | .error e => .error e
        | .ok (msg1, s3) =>
          match readNBytes HashLength s3 with
          | .error e => .error e
          | .ok (stop, s4) => .ok ({ msg1 with HashStop := stop }, s4)

/-- VVSEncode encodes the receiver: after re-validating the count bound,
write the 4-byte version, the CompactSize count, each 32-byte locator hash
in sequence order and the 32-byte stop hash. -/
def MsgGetHeaders.VVSEncode (msg : MsgGetHeaders) (pver : Nat) :
    Except CodecError (List Nat) :=
  let count := msg.BlockLocatorHashes.length
  if count > MaxBlockLocatorsPerMsg then
    .error (.messageError "MsgGetHeaders.VVSEncode" (tooManyCountStr count))
  else
    .ok (writeUint32 msg.ProtocolVersion ++ writeVarInt count ++
      msg.BlockLocatorHashes.flatten ++ msg.HashStop)

/-- MaxPayloadLength returns the maximum length the payload can be:
version 4 bytes + num block locator hashes (varInt) + max allowed block
locators + hash stop. -/
def MsgGetHeaders.MaxPayloadLength (pver : Nat) : Nat :=
  4 + MaxVarIntPayload + MaxBlockLocatorsPerMsg * HashLength + HashLength

/-- NewMsgGetHeaders returns a new getheaders message with an empty locator
sequence (Go zero values for the remaining fields). -/
def NewMsgGetHeaders : MsgGetHeaders :=
  { ProtocolVersion := 0, BlockLocatorHashes := [], HashStop := zeroHash }

/-- Well-formed message: version fits a uint32, at most 500 locator hashes,
every hash (stop hash included) is exactly 32 byte values. -/
def MsgGetHeaders.WellFormed (msg : MsgGetHeaders) : Prop :=
  msg.ProtocolVersion < 4294967296 ∧
  msg.BlockLocatorHashes.length ≤ MaxBlockLocatorsPerMsg ∧
  (∀ h ∈ msg.BlockLocatorHashes, isHash h) ∧
  isHash msg.HashStop

instance (msg : MsgGetHeaders) : Decidable msg.WellFormed := by
  unfold MsgGetHeaders.WellFormed; infer_instance

/-- MsgGetBlocks represents the getblocks message: same fields as the
getheaders variant (`src/protos/msggetheaders.go`, second document). -/
structure MsgGetBlocks where
  ProtocolVersion : Nat
  BlockLocatorHashes : List Hash
  HashStop : Hash
deriving DecidableEq, Repr

/-- AddBlockLocatorHash adds a new block locator hash to the getblocks
message, failing when the post-append length would exceed the maximum. -/
def MsgGetBlocks.AddBlockLocatorHash (msg : MsgGetBlocks) (hash : Hash) :
    Except CodecError MsgGetBlocks :=
  if msg.BlockLocatorHashes.length + 1 > MaxBlockLocatorsPerMsg then
    .error (.messageError "MsgGetBlocks.AddBlockLocatorHash" tooManyAddStr)
  else
    .ok { msg with BlockLocatorHashes := msg.BlockLocatorHashes ++ [hash] }

/-- The decode loop of `MsgGetBlocks.VVSDecode`. -/
def MsgGetBlocks.decodeLoop (msg : MsgGetBlocks) (n : Nat) (s : List Nat) :
    Except CodecError (MsgGetBlocks × List Nat) :=
  match n with
  | 0 => .ok (msg, s)
  | m + 1 =>
    match readNBytes HashLength s with
    | .error e => .error e
    | .ok (h, s1) =>
      match msg.AddBlockLocatorHash h with
      | .error e => .error e
      | .ok msg1 => MsgGetBlocks.decodeLoop msg1 m s1

/-- VVSDecode for the getblocks variant; identical structure to the
getheaders decoder, differing only in the reported function names. -/
def MsgGetBlocks.VVSDecode (msg : MsgGetBlocks) (pver : Nat) (s : List Nat) :
    Except CodecError (MsgGetBlocks × List Nat) :=
  match readUint32 s with
  | .error e => .error e
  | .ok (pv, s1) =>
    match readVarInt s1 with
    | .error e => .error e
    | .ok (count, s2) =>
      if count > MaxBlockLocatorsPerMsg then
        .error (.messageError "MsgGetBlocks.VVSDecode" (tooManyCountStr count))
      else
        match MsgGetBlocks.decodeLoop
            { msg with ProtocolVersion := pv, BlockLocatorHashes := [] } count s2 with
        | .error e => .error e
        | .ok (msg1, s3) =>
          match readNBytes HashLength s3 with
          | .error e => .error e
          | .ok (stop, s4) => .ok ({ msg1 with HashStop := stop }, s4)

/-- VVSEncode for the getblocks variant; identical layout to the getheaders
encoder. -/
def MsgGetBlocks.VVSEncode (msg : MsgGetBlocks) (pver : Nat) :
    Except CodecError (List Nat) :=
  let count := msg.BlockLocatorHashes.length
  if count > MaxBlockLocatorsPerMsg then
    .error (.messageError "MsgGetBlocks.VVSEncode" (tooManyCountStr count))
  else
    .ok (writeUint32 msg.ProtocolVersion ++ writeVarInt count ++
      msg.BlockLocatorHashes.flatten ++ msg.HashStop)

/-- MaxPayloadLength for the getblocks variant: protocol version 4 bytes +
num hashes (varInt) + max block locator hashes + hash stop. -/
def MsgGetBlocks.MaxPayloadLength (pver : Nat) : Nat :=
  4 + MaxVarIntPayload + MaxBlockLocatorsPerMsg * HashLength + HashLength

/-- Well-formed getblocks message, as for the getheaders variant. -/
def MsgGetBlocks.WellFormed (msg : MsgGetBlocks) : Prop :=
  msg.ProtocolVersion < 4294967296 ∧
  msg.BlockLocatorHashes.length ≤ MaxBlockLocatorsPerMsg ∧
  (∀ h ∈ msg.BlockLocatorHashes, isHash h) ∧
  isHash msg.HashStop

instance (msg : MsgGetBlocks) : Decidable msg.WellFormed := by
  unfold MsgGetBlocks.WellFormed; infer_instance

/-- Proof-layer helper (not part of the source): read `n` 32-byte hashes in
sequence. -/
def readHashes (n : Nat) (s : List Nat) : Except CodecError (List Hash × List Nat) :=
  match n with
  | 0 => .ok ([], s)
  | m + 1 =>
    match readNBytes HashLength s with
    | .error e => .error e
    | .ok (h, s1) =>
      match readHashes m s1 with
      | .error e => .error e
      | .ok (hs, r) => .ok (h :: hs, r)

/-- Proof-layer helper: the receiver-independent core of both decoders,
returning the decoded field triple.  Protocol-violation errors carry an
empty function name, to be renamed per variant by `renameMsgErr`. -/
def decodeCore (s : List Nat) :
    Except CodecError ((Nat × List Hash × Hash) × List Nat) :=
  match readUint32 s with
  | .error e => .error e
  | .ok (pv, s1) =>
    match readVarInt s1 with
    | .error e => .error e
    | .ok (count, s2) =>
      if count > MaxBlockLocatorsPerMsg then
        .error (.messageError "" (tooManyCountStr count))
      else
        match readHashes count s2 with
        | .error e => .error e
        | .ok (hs, s3) =>
          match readNBytes HashLength s3 with
          | .error e => .error e
          | .ok (stop, s4) => .ok ((pv, hs, stop), s4)

/-- Proof-layer helper: stamp protocol-violation errors with the reporting
function's name. -/
def renameMsgErr (f : String) : CodecError → CodecError
  | .messageError _ d => .messageError f d
  | .streamFailure => .streamFailure

/-- Scenario helper for the bound-enforcement claim: perform one
`AddBlockLocatorHash` call per hash in the list, keeping the message
unchanged on a failed call, and count the successful calls. -/
def addMany (msg : MsgGetHeaders) (hs : List Hash) : MsgGetHeaders × Nat :=
  match hs with
  | [] => (msg, 0)
  | h :: t =>
    match msg.AddBlockLocatorHash h with
    | .ok m1 => let r := addMany m1 t; (r.1, r.2 + 1)
    | .error _ => addMany msg t

/-- Observation of a getheaders decode outcome: the decoded field triple and
remaining stream on success, nothing on failure. -/
def obsHeaders (x : Except CodecError (MsgGetHeaders × List Nat)) :
    Option ((Nat × List Hash × Hash) × List Nat) :=
  match x with
  | .ok (m, r) => some ((m.ProtocolVersion, m.BlockLocatorHashes, m.HashStop), r)
  | .error _ => none

/-- Observation of a getblocks decode outcome. -/
def obsBlocks (x : Except CodecError (MsgGetBlocks × List Nat)) :
    Option ((Nat × List Hash × Hash) × List Nat) :=
  match x with
  | .ok (m, r) => some ((m.ProtocolVersion, m.BlockLocatorHashes, m.HashStop), r)
  | .error _ => none

/-- Observation of an encode outcome: the byte stream on success. -/
def obsBytes (x : Except CodecError (List Nat)) : Option (List Nat) :=
  match x with
  | .ok b => some b
  | .error _ => none

/-- Concrete sample hash (32 bytes of value 1) for witnesses. -/
def sampleHash1 : Hash := List.replicate HashLength 1

/-- Concrete sample hash (32 bytes of value 2) for witnesses. -/
def sampleHash2 : Hash := List.replicate HashLength 2

/-- Concrete sample getheaders message for witnesses. -/
def sampleMsg : MsgGetHeaders :=
  { ProtocolVersion := 7, BlockLocatorHashes := [sampleHash1],
    HashStop := sampleHash2 }

/-- Concrete sample getblocks message with the same fields as `sampleMsg`. -/
def sampleMsgB : MsgGetBlocks :=
  { ProtocolVersion := 7, BlockLocatorHashes := [sampleHash1],
    HashStop := sampleHash2 }

/-- Concrete empty getblocks message for witnesses. -/
def emptyMsgB : MsgGetBlocks :=
  { ProtocolVersion := 0, BlockLocatorHashes := [], HashStop := zeroHash }

/-- The byte stream `sampleMsg` encodes to. -/
def sampleBytes : List Nat :=
  writeUint32 7 ++ writeVarInt 1 ++ ([sampleHash1] : List Hash).flatten ++
    sampleHash2

/-- Concrete getheaders message holding the maximum number of locator
hashes, for witnesses. -/
def sampleFull : MsgGetHeaders :=
  { ProtocolVersion := 0,
    BlockLocatorHashes := List.replicate MaxBlockLocatorsPerMsg sampleHash1,
    HashStop := zeroHash }

/-! ### Little-endian and reader lemmas -/

theorem leBytes_length (w v : Nat) : (leBytes w v).length = w := by
  induction w generalizing v with
  | zero => simp [leBytes]
  | succ w ih => simp [leBytes, ih]

theorem leVal_leBytes (w v : Nat) (h : v < 256 ^ w) : leVal (leBytes w v) = v := by
  induction w generalizing v with
  | zero =>
    simp only [Nat.pow_zero, Nat.lt_one_iff] at h
    simp [leBytes, leVal, h]
  | succ w ih =>
    have hp : 256 ^ (w + 1) = 256 ^ w * 256 := Nat.pow_succ ..
    have h2 : v / 256 < 256 ^ w := by omega
    simp [leBytes, leVal, ih _ h2]
    omega

theorem readNBytes_append (n : Nat) (l r : List Nat) (h : l.length = n) :
    readNBytes n (l ++ r) = .ok (l, r) := by
  subst h
  simp [readNBytes, List.take_left, List.drop_left]

theorem readNBytes_short (n : Nat) (s : List Nat) (h : s.length < n) :
    readNBytes n s = .error .streamFailure := by
  unfold readNBytes
  rw [if_neg (by omega)]

theorem readNBytes_append_take (n k : Nat) (l r : List Nat)
    (hl : l.length = n) (hk : n ≤ k) :
    readNBytes n ((l ++ r).take k) = .ok (l, r.take (k - n)) := by
  have hsplit : (l ++ r).take k = l ++ r.take (k - n) := by
    rw [List.take_append_eq_append_take, List.take_of_length_le (by omega), hl]
  rw [hsplit]
  exact readNBytes_append n l (r.take (k - n)) hl

theorem readNBytes_take_short (n k : Nat) (s : List Nat) (hk : k < n) :
    readNBytes n (s.take k) = .error .streamFailure := by
  apply readNBytes_short
  have := List.length_take k s
  omega

theorem readUint32_append (v : Nat) (r : List Nat) (hv : v < 4294967296) :
    readUint32 (writeUint32 v ++ r) = .ok (v, r) := by
  have hlen : (writeUint32 v).length = 4 := leBytes_length 4 v
  have hval : leVal (writeUint32 v) = v := by
    have h4 : (256 : Nat) ^ 4 = 4294967296 := by norm_num
    exact leVal_leBytes 4 v (by omega)
  simp [readUint32, readNBytes_append 4 _ r hlen, hval]

theorem readUint32_append_take (v k : Nat) (r : List Nat)
    (hv : v < 4294967296) (hk : 4 ≤ k) :
    readUint32 ((writeUint32 v ++ r).take k) = .ok (v, r.take (k - 4)) := by
  have hlen : (writeUint32 v).length = 4 := leBytes_length 4 v
  have hval : leVal (writeUint32 v) = v := by
    have h4 : (256 : Nat) ^ 4 = 4294967296 := by norm_num
    exact leVal_leBytes 4 v (by omega)
  simp [readUint32, readNBytes_append_take 4 k _ r hlen hk, hval]

theorem readUint32_short (s : List Nat) (h : s.length < 4) :
    readUint32 s = .error .streamFailure := by
  simp [readUint32, readNBytes_short 4 s h]

theorem readVarInt_append (v : Nat) (r : List Nat)
    (hv : v < 18446744073709551616) :
    readVarInt (writeVarInt v ++ r) = .ok (v, r) := by
  unfold writeVarInt
  split_ifs with h1 h2 h3
  · have e1 : v ≠ 255 := by omega
    have e2 : v ≠ 254 := by omega
    have e3 : v ≠ 253 := by omega
    simp [readVarInt, e1, e2, e3]
  · have hval : leVal (leBytes 2 v) = v := by
      have hp : (256 : Nat) ^ 2 = 65536 := by norm_num
      exact leVal_leBytes 2 v (by omega)
    simp [readVarInt, readNBytes_append 2 _ r (leBytes_length 2 v), hval]
  · have hval : leVal (leBytes 4 v) = v := by
      have hp : (256 : Nat) ^ 4 = 4294967296 := by norm_num
      exact leVal_leBytes 4 v (by omega)
    simp [readVarInt, readNBytes_append 4 _ r (leBytes_length 4 v), hval]
  · have hval : leVal (leBytes 8 v) = v := by
      have hp : (256 : Nat) ^ 8 = 18446744073709551616 := by norm_num
      exact leVal_leBytes 8 v (by omega)
    simp [readVarInt, readNBytes_append 8 _ r (leBytes_length 8 v), hval]

theorem writeVarInt_length_le (v : Nat) (hv : v ≤ 500) :
    (writeVarInt v).length ≤ 3 := by
  unfold writeVarInt
  split_ifs with h1 h2
  · simp
  · simp [leBytes_length]
  · omega
  · omega

theorem readVarInt_append_take (v k : Nat) (r : List Nat)
    (hv : v ≤ 500) (hk : (writeVarInt v).length ≤ k) :
    readVarInt ((writeVarInt v ++ r).take k) =
      .ok (v, r.take (k - (writeVarInt v).length)) := by
  by_cases h1 : v < 253
  · have hw : writeVarInt v = [v] := by unfold writeVarInt; rw [if_pos (by omega)]
    rw [hw] at hk ⊢
    simp only [List.length_cons, List.length_nil] at hk ⊢
    obtain ⟨k1, rfl⟩ : ∃ k1, k = k1 + 1 := ⟨k - 1, by omega⟩
    have e1 : v ≠ 255 := by omega
    have e2 : v ≠ 254 := by omega
    have e3 : v ≠ 253 := by omega
    simp [readVarInt, List.take_succ_cons, e1, e2, e3]
  · have hw : writeVarInt v = 253 :: leBytes 2 v := by
      unfold writeVarInt
      rw [if_neg (by omega), if_pos (by omega)]
    have hval : leVal (leBytes 2 v) = v := by
      have hp : (256 : Nat) ^ 2 = 65536 := by norm_num
      exact leVal_leBytes 2 v (by omega)
    rw [hw] at hk ⊢
    simp only [List.length_cons, leBytes_length] at hk ⊢
    obtain ⟨k1, rfl⟩ : ∃ k1, k = k1 + 1 := ⟨k - 1, by omega⟩
    simp only [List.cons_append, List.take_succ_cons]
    simp [readVarInt,
      readNBytes_append_take 2 k1 (leBytes 2 v) r (leBytes_length 2 v) (by omega),
      hval]

theorem readVarInt_take_short (v k : Nat) (r : List Nat)
    (hv : v ≤ 500) (hk : k < (writeVarInt v).length) :
    readVarInt ((writeVarInt v ++ r).take k) = .error .streamFailure := by
  by_cases h1 : v < 253
  · have hw : writeVarInt v = [v] := by unfold writeVarInt; rw [if_pos (by omega)]
    rw [hw] at hk ⊢
    simp only [List.length_cons, List.length_nil] at hk
    have hk0 : k = 0 := by omega
    subst hk0
    simp [readVarInt]
  · have hw : writeVarInt v = 253 :: leBytes 2 v := by
      unfold writeVarInt
      rw [if_neg (by omega), if_pos (by omega)]
    rw [hw] at hk ⊢
    simp only [List.length_cons, leBytes_length] at hk
    match k, hk with
    | 0, _ => simp [readVarInt]
    | k1 + 1, hk =>
      simp only [List.cons_append, List.take_succ_cons]
      have hshort : readNBytes 2 ((leBytes 2 v ++ r).take k1) = .error .streamFailure :=
        readNBytes_take_short 2 k1 _ (by omega)
      simp [readVarInt, hshort]

/-! ### Error classification -/

theorem readNBytes_error (n : Nat) (s : List Nat) (e : CodecError)
    (h : readNBytes n s = .error e) : e = .streamFailure := by
  unfold readNBytes at h
  split at h <;> simp_all

theorem readUint32_error (s : List Nat) (e : CodecError)
    (h : readUint32 s = .error e) : e = .streamFailure := by
  unfold readUint32 at h
  cases hr : readNBytes 4 s with
  | error e1 =>
    rw [hr] at h
    simp at h
    rw [← h]
    exact readNBytes_error 4 s e1 hr
  | ok p => rw [hr] at h; simp at h

theorem readVarInt_shape (s : List Nat) :
    (∃ p, readVarInt s = .ok p) ∨ readVarInt s = .error .streamFailure := by
  unfold readVarInt
  cases s with
  | nil => right; rfl
  | cons d rest =>
    dsimp only
    split_ifs with h1 h2 h3
    · cases hr : readNBytes 8 rest with
      | error e1 =>
        right
        dsimp only
        rw [readNBytes_error _ _ _ hr]
      | ok p => left; obtain ⟨bs, r⟩ := p; exact ⟨_, rfl⟩
    · cases hr : readNBytes 4 rest with
      | error e1 =>
        right
        dsimp only
        rw [readNBytes_error _ _ _ hr]
      | ok p => left; obtain ⟨bs, r⟩ := p; exact ⟨_, rfl⟩
    · cases hr : readNBytes 2 rest with
      | error e1 =>
        right
        dsimp only
        rw [readNBytes_error _ _ _ hr]
      | ok p => left; obtain ⟨bs, r⟩ := p; exact ⟨_, rfl⟩
    · left; exact ⟨_, rfl⟩

theorem readVarInt_error (s : List Nat) (e : CodecError)
    (h : readVarInt s = .error e) : e = .streamFailure := by
  rcases readVarInt_shape s with ⟨p, hp⟩ | hsf
  · rw [hp] at h; exact Except.noConfusion h
  · rw [hsf] at h
    exact (Except.error.inj h).symm

theorem readHashes_shape (n : Nat) (s : List Nat) :
    (∃ p, readHashes n s = .ok p) ∨ readHashes n s = .error .streamFailure := by
  induction n generalizing s with
  | zero => left; exact ⟨_, rfl⟩
  | succ m ih =>
    unfold readHashes
    cases hr : readNBytes HashLength s with
    | error e1 =>
      right
      dsimp only
      rw [readNBytes_error _ _ _ hr]
    | ok p =>
      obtain ⟨hd, s1⟩ := p
      dsimp only
      rcases ih s1 with ⟨q, hq⟩ | hsf
      · obtain ⟨t, r1⟩ := q
        left
        rw [hq]
        exact ⟨_, rfl⟩
      · right
        rw [hsf]

theorem readHashes_error (n : Nat) (s : List Nat) (e : CodecError)
    (h : readHashes n s = .error e) : e = .streamFailure := by
  rcases readHashes_shape n s with ⟨p, hp⟩ | hsf
  · rw [hp] at h; exact Except.noConfusion h
  · rw [hsf] at h
    exact (Except.error.inj h).symm

/-! ### Loop characterization and decode core -/

theorem readHashes_ok_length (n : Nat) (s : List Nat) (hs : List Hash) (r : List Nat)
    (h : readHashes n s = .ok (hs, r)) : hs.length = n := by
  induction n generalizing s hs r with
  | zero => simp [readHashes] at h; simp [h.1]
  | succ m ih =>
    unfold readHashes at h
    cases hr : readNBytes HashLength s with
    | error e1 => rw [hr] at h; simp at h
    | ok p =>
      obtain ⟨hd, s1⟩ := p
      rw [hr] at h
      dsimp only at h
      cases hh : readHashes m s1 with
      | error e1 => rw [hh] at h; simp at h
      | ok q =>
        obtain ⟨t, r1⟩ := q
        rw [hh] at h
        simp only [Except.ok.injEq, Prod.mk.injEq] at h
        obtain ⟨h1, h2⟩ := h
        rw [← h1]
        simp [ih s1 t r1 hh]

theorem headersDecodeLoop_eq (n : Nat) (msg : MsgGetHeaders) (s : List Nat)
    (hb : msg.BlockLocatorHashes.length + n ≤ MaxBlockLocatorsPerMsg) :
    MsgGetHeaders.decodeLoop msg n s =
      match readHashes n s with
      | .error e => .error e
      | .ok (hs, r) =>
        .ok ({ msg with BlockLocatorHashes := msg.BlockLocatorHashes ++ hs }, r) := by
  induction n generalizing msg s with
  | zero => simp [MsgGetHeaders.decodeLoop, readHashes]
  | succ m ih =>
    unfold MsgGetHeaders.decodeLoop readHashes
    cases hr : readNBytes HashLength s with
    | error e => simp
    | ok p =>
      obtain ⟨h, s1⟩ := p
      have hadd : msg.AddBlockLocatorHash h =
          .ok { msg with BlockLocatorHashes := msg.BlockLocatorHashes ++ [h] } := by
        unfold MsgGetHeaders.AddBlockLocatorHash
        rw [if_neg (by omega)]
      simp only [hadd]
      rw [ih { msg with BlockLocatorHashes := msg.BlockLocatorHashes ++ [h] } s1
        (by simp; omega)]
      cases readHashes m s1 with
      | error e => simp
      | ok q =>
        obtain ⟨hs, r⟩ := q
        simp

theorem blocksDecodeLoop_eq (n : Nat) (msg : MsgGetBlocks) (s : List Nat)
    (hb : msg.BlockLocatorHashes.length + n ≤ MaxBlockLocatorsPerMsg) :
    MsgGetBlocks.decodeLoop msg n s =
      match readHashes n s with
      | .error e => .error e
      | .ok (hs, r) =>
        .ok ({ msg with BlockLocatorHashes := msg.BlockLocatorHashes ++ hs }, r) := by
  induction n generalizing msg s with
  | zero => simp [MsgGetBlocks.decodeLoop, readHashes]
  | succ m ih =>
    unfold MsgGetBlocks.decodeLoop readHashes
    cases hr : readNBytes HashLength s with
    | error e => simp
    | ok p =>
      obtain ⟨h, s1⟩ := p
      have hadd : msg.AddBlockLocatorHash h =
          .ok { msg with BlockLocatorHashes := msg.BlockLocatorHashes ++ [h] } := by
        unfold MsgGetBlocks.AddBlockLocatorHash
        rw [if_neg (by omega)]
      simp only [hadd]
      rw [ih { msg with BlockLocatorHashes := msg.BlockLocatorHashes ++ [h] } s1
        (by simp; omega)]
      cases readHashes m s1 with
      | error e => simp
      | ok q =>
        obtain ⟨hs, r⟩ := q
        simp

theorem headersDecode_eq_core (msg : MsgGetHeaders) (pver : Nat) (s : List Nat) :
    msg.VVSDecode pver s =
      match decodeCore s with
      | .error e => .error (renameMsgErr "MsgGetHeaders.VVSDecode" e)
      | .ok ((pv, hs, stop), r) => .ok (⟨pv, hs, stop⟩, r) := by
  unfold MsgGetHeaders.VVSDecode decodeCore
  cases hu : readUint32 s with
  | error e =>
    dsimp only
    rw [readUint32_error _ _ hu]
    simp [renameMsgErr]
  | ok p =>
    obtain ⟨pv, s1⟩ := p
    dsimp only
    cases hv : readVarInt s1 with
    | error e =>
      dsimp only
      rw [readVarInt_error _ _ hv]
      simp [renameMsgErr]
    | ok q =>
      obtain ⟨count, s2⟩ := q
      dsimp only
      by_cases hc : count > MaxBlockLocatorsPerMsg
      · rw [if_pos hc, if_pos hc]
        simp [renameMsgErr]
      · rw [if_neg hc, if_neg hc]
        rw [headersDecodeLoop_eq count _ s2 (by simp; omega)]
        cases hh : readHashes count s2 with
        | error e =>
          dsimp only
          rw [readHashes_error _ _ _ hh]
          simp [renameMsgErr]
        | ok hr =>
          obtain ⟨hs, s3⟩ := hr
          dsimp only
          cases hn : readNBytes HashLength s3 with
          | error e =>
            dsimp only
            rw [readNBytes_error _ _ _ hn]
            simp [renameMsgErr]
          | ok st =>
            obtain ⟨stop, s4⟩ := st
            simp

theorem blocksDecode_eq_core (msg : MsgGetBlocks) (pver : Nat) (s : List Nat) :
    msg.VVSDecode pver s =
      match decodeCore s with
      | .error e => .error (renameMsgErr "MsgGetBlocks.VVSDecode" e)
      | .ok ((pv, hs, stop), r) => .ok (⟨pv, hs, stop⟩, r) := by
  unfold MsgGetBlocks.VVSDecode decodeCore
  cases hu : readUint32 s with
  | error e =>
    dsimp only
    rw [readUint32_error _ _ hu]
    simp [renameMsgErr]
  | ok p =>
    obtain ⟨pv, s1⟩ := p
    dsimp only
    cases hv : readVarInt s1 with
    | error e =>
      dsimp only
      rw [readVarInt_error _ _ hv]
      simp [renameMsgErr]
    | ok q =>
      obtain ⟨count, s2⟩ := q
      dsimp only
      by_cases hc : count > MaxBlockLocatorsPerMsg
      · rw [if_pos hc, if_pos hc]
        simp [renameMsgErr]
      · rw [if_neg hc, if_neg hc]
        rw [blocksDecodeLoop_eq count _ s2 (by simp; omega)]
        cases hh : readHashes count s2 with
        | error e =>
          dsimp only
          rw [readHashes_error _ _ _ hh]
          simp [renameMsgErr]
        | ok hr =>
          obtain ⟨hs, s3⟩ := hr
          dsimp only
          cases hn : readNBytes HashLength s3 with
          | error e =>
            dsimp only
            rw [readNBytes_error _ _ _ hn]
            simp [renameMsgErr]
          | ok st =>
            obtain ⟨stop, s4⟩ := st
            simp

/-! ### Round-trip and truncation lemmas -/

theorem readNBytes_exact (n : Nat) (l : List Nat) (h : l.length = n) :
    readNBytes n l = .ok (l, []) := by
  have := readNBytes_append n l [] h
  rwa [List.append_nil] at this

theorem readUint32_take_short (s : List Nat) (k : Nat) (hk : k < 4) :
    readUint32 (s.take k) = .error .streamFailure := by
  simp [readUint32, readNBytes_take_short 4 k s hk]

theorem flatten_length_of (hs : List Hash)
    (hlen : ∀ h ∈ hs, h.length = HashLength) :
    hs.flatten.length = HashLength * hs.length := by
  induction hs with
  | nil => simp
  | cons h t ih =>
    have hh : h.length = HashLength := hlen h (List.mem_cons_self h t)
    have ht : ∀ x ∈ t, x.length = HashLength :=
      fun x hx => hlen x (List.mem_cons_of_mem h hx)
    simp only [List.flatten_cons, List.length_append, List.length_cons, hh, ih ht,
      Nat.mul_succ]
    omega

theorem readHashes_append (hs : List Hash) (r : List Nat)
    (hlen : ∀ h ∈ hs, h.length = HashLength) :
    readHashes hs.length (hs.flatten ++ r) = .ok (hs, r) := by
  induction hs with
  | nil => simp [readHashes]
  | cons h t ih =>
    have hh : h.length = HashLength := hlen h (List.mem_cons_self h t)
    have ht : ∀ x ∈ t, x.length = HashLength :=
      fun x hx => hlen x (List.mem_cons_of_mem h hx)
    show readHashes (t.length + 1) ((h ++ t.flatten) ++ r) = .ok (h :: t, r)
    rw [List.append_assoc]
    unfold readHashes
    rw [readNBytes_append HashLength h (t.flatten ++ r) hh]
    dsimp only
    rw [ih ht]

theorem readHashes_take_short (hs : List Hash) (k : Nat) (r : List Nat)
    (hlen : ∀ h ∈ hs, h.length = HashLength)
    (hk : k < HashLength * hs.length) :
    readHashes hs.length ((hs.flatten ++ r).take k) = .error .streamFailure := by
  induction hs generalizing k with
  | nil => simp at hk
  | cons h t ih =>
    have hh : h.length = HashLength := hlen h (List.mem_cons_self h t)
    have ht : ∀ x ∈ t, x.length = HashLength :=
      fun x hx => hlen x (List.mem_cons_of_mem h hx)
    show readHashes (t.length + 1) (((h ++ t.flatten) ++ r).take k) =
      .error .streamFailure
    rw [List.append_assoc]
    unfold readHashes
    by_cases hk32 : k < HashLength
    · rw [readNBytes_take_short HashLength k _ hk32]
    · rw [readNBytes_append_take HashLength k h (t.flatten ++ r) hh (by omega)]
      dsimp only
      rw [ih (k - HashLength) ht
        (by simp only [HashLength, List.length_cons, Nat.mul_succ] at *; omega)]

theorem readHashes_append_take (hs : List Hash) (k : Nat) (r : List Nat)
    (hlen : ∀ h ∈ hs, h.length = HashLength)
    (hk : HashLength * hs.length ≤ k) :
    readHashes hs.length ((hs.flatten ++ r).take k) =
      .ok (hs, r.take (k - HashLength * hs.length)) := by
  induction hs generalizing k with
  | nil => simp [readHashes]
  | cons h t ih =>
    have hh : h.length = HashLength := hlen h (List.mem_cons_self h t)
    have ht : ∀ x ∈ t, x.length = HashLength :=
      fun x hx => hlen x (List.mem_cons_of_mem h hx)
    have hk1 : HashLength ≤ k := by
      simp only [List.length_cons, Nat.mul_succ] at hk
      omega
    show readHashes (t.length + 1) (((h ++ t.flatten) ++ r).take k) =
      .ok (h :: t, r.take (k - HashLength * (t.length + 1)))
    rw [List.append_assoc]
    unfold readHashes
    rw [readNBytes_append_take HashLength k h (t.flatten ++ r) hh hk1]
    dsimp only
    rw [ih (k - HashLength) ht
      (by simp only [List.length_cons, Nat.mul_succ] at hk ⊢; omega)]
    have harith : k - HashLength - HashLength * t.length =
        k - HashLength * (t.length + 1) := by
      simp only [Nat.mul_succ]
      omega
    rw [harith]

/-! ### Encoder characterization -/

theorem headersEncode_ok (msg : MsgGetHeaders) (pver : Nat)
    (hb : msg.BlockLocatorHashes.length ≤ MaxBlockLocatorsPerMsg) :
    msg.VVSEncode pver = .ok (writeUint32 msg.ProtocolVersion ++
      writeVarInt msg.BlockLocatorHashes.length ++
      msg.BlockLocatorHashes.flatten ++ msg.HashStop) := by
  unfold MsgGetHeaders.VVSEncode
  dsimp only
  rw [if_neg (by omega)]

theorem blocksEncode_ok (msg : MsgGetBlocks) (pver : Nat)
    (hb : msg.BlockLocatorHashes.length ≤ MaxBlockLocatorsPerMsg) :
    msg.VVSEncode pver = .ok (writeUint32 msg.ProtocolVersion ++
      writeVarInt msg.BlockLocatorHashes.length ++
      msg.BlockLocatorHashes.flatten ++ msg.HashStop) := by
  unfold MsgGetBlocks.VVSEncode
  dsimp only
  rw [if_neg (by omega)]

/-! ### Decode core on encoded and truncated streams -/

theorem decodeCore_encode (pv : Nat) (hs : List Hash) (stop : Hash)
    (hpv : pv < 4294967296) (hc : hs.length ≤ MaxBlockLocatorsPerMsg)
    (hlen : ∀ h ∈ hs, h.length = HashLength) (hstop : stop.length = HashLength) :
    decodeCore (writeUint32 pv ++ writeVarInt hs.length ++ hs.flatten ++ stop) =
      .ok ((pv, hs, stop), []) := by
  have hc64 : hs.length < 18446744073709551616 := by
    simp only [MaxBlockLocatorsPerMsg] at hc
    omega
  unfold decodeCore
  rw [List.append_assoc, List.append_assoc]
  rw [readUint32_append pv _ hpv]
  dsimp only
  rw [readVarInt_append hs.length _ hc64]
  dsimp only
  rw [if_neg (by omega)]
  rw [readHashes_append hs stop hlen]
  dsimp only
  rw [readNBytes_exact HashLength stop hstop]

theorem decodeCore_header (pv c : Nat) (rest : List Nat)
    (hpv : pv < 4294967296) (hc64 : c < 18446744073709551616) :
    decodeCore (writeUint32 pv ++ writeVarInt c ++ rest) =
      if c > MaxBlockLocatorsPerMsg then
        .error (.messageError "" (tooManyCountStr c))
      else
        match readHashes c rest with
        | .error e => .error e
        | .ok (hs, s3) =>
          match readNBytes HashLength s3 with
          | .error e => .error e
          | .ok (stop, s4) => .ok ((pv, hs, stop), s4) := by
  unfold decodeCore
  rw [List.append_assoc]
  rw [readUint32_append pv _ hpv]
  dsimp only
  rw [readVarInt_append c _ hc64]

theorem decodeCore_ok_count (s : List Nat) (pv : Nat) (hs : List Hash)
    (stop : Hash) (r : List Nat)
    (h : decodeCore s = .ok ((pv, hs, stop), r)) :
    hs.length ≤ MaxBlockLocatorsPerMsg := by
  unfold decodeCore at h
  cases hu : readUint32 s with
  | error e => rw [hu] at h; simp at h
  | ok p =>
    obtain ⟨pv1, s1⟩ := p
    rw [hu] at h
    dsimp only at h
    cases hv : readVarInt s1 with
    | error e => rw [hv] at h; simp at h
    | ok q =>
      obtain ⟨count, s2⟩ := q
      rw [hv] at h
      dsimp only at h
      by_cases hc : count > MaxBlockLocatorsPerMsg
      · rw [if_pos hc] at h; simp at h
      · rw [if_neg hc] at h
        cases hh : readHashes count s2 with
        | error e => rw [hh] at h; simp at h
        | ok hr =>
          obtain ⟨hs1, s3⟩ := hr
          rw [hh] at h
          dsimp only at h
          cases hn : readNBytes HashLength s3 with
          | error e => rw [hn] at h; simp at h
          | ok st =>
            obtain ⟨stop1, s4⟩ := st
            rw [hn] at h
            simp only [Except.ok.injEq, Prod.mk.injEq] at h
            obtain ⟨⟨hpv1, hhs1, hst1⟩, hr1⟩ := h
            rw [← hhs1, readHashes_ok_length count s2 hs1 s3 hh]
            omega

theorem decodeCore_take_strict (pv : Nat) (hs : List Hash) (stop : Hash) (k : Nat)
    (hpv : pv < 4294967296) (hc : hs.length ≤ MaxBlockLocatorsPerMsg)
    (hlen : ∀ h ∈ hs, h.length = HashLength) (hstop : stop.length = HashLength)
    (hk : k <
      (writeUint32 pv ++ writeVarInt hs.length ++ hs.flatten ++ stop).length) :
    decodeCore
        ((writeUint32 pv ++ writeVarInt hs.length ++ hs.flatten ++ stop).take k) =
      .error .streamFailure := by
  have hc500 : hs.length ≤ 500 := by
    simp only [MaxBlockLocatorsPerMsg] at hc; exact hc
  have hwlen : (writeUint32 pv).length = 4 := leBytes_length 4 pv
  have hflen : hs.flatten.length = HashLength * hs.length := flatten_length_of hs hlen
  have hvlen : (writeVarInt hs.length).length ≤ 3 := writeVarInt_length_le _ hc500
  simp only [List.length_append, hwlen, hflen, hstop] at hk
  unfold decodeCore
  rw [List.append_assoc, List.append_assoc]
  by_cases hk4 : k < 4
  · rw [readUint32_take_short _ k hk4]
  · rw [readUint32_append_take pv k _ hpv (by omega)]
    dsimp only
    by_cases hkv : k - 4 < (writeVarInt hs.length).length
    · rw [readVarInt_take_short hs.length (k - 4) _ hc500 hkv]
    · rw [readVarInt_append_take hs.length (k - 4) _ hc500 (by omega)]
      dsimp only
      rw [if_neg (by omega)]
      by_cases hkh : k - 4 - (writeVarInt hs.length).length < HashLength * hs.length
      · rw [readHashes_take_short hs _ stop hlen hkh]
      · rw [readHashes_append_take hs _ stop hlen (by omega)]
        dsimp only
        rw [readNBytes_take_short HashLength _ stop
          (by simp only [HashLength] at hk hkh ⊢; omega)]

/-! ### Mutator iteration lemmas -/

theorem addMany_all_ok (hs : List Hash) (msg : MsgGetHeaders)
    (hb : msg.BlockLocatorHashes.length + hs.length ≤ MaxBlockLocatorsPerMsg) :
    addMany msg hs =
      ({ msg with BlockLocatorHashes := msg.BlockLocatorHashes ++ hs },
        hs.length) := by
  induction hs generalizing msg with
  | nil => simp [addMany]
  | cons h t ih =>
    simp only [List.length_cons] at hb
    unfold addMany
    have hadd : msg.AddBlockLocatorHash h =
        .ok { msg with BlockLocatorHashes := msg.BlockLocatorHashes ++ [h] } := by
      unfold MsgGetHeaders.AddBlockLocatorHash
      rw [if_neg (by omega)]
    rw [hadd]
    dsimp only
    rw [ih { msg with BlockLocatorHashes := msg.BlockLocatorHashes ++ [h] }
      (by simp; omega)]
    simp [List.append_assoc]

theorem addMany_none (hs : List Hash) (msg : MsgGetHeaders)
    (hf : MaxBlockLocatorsPerMsg ≤ msg.BlockLocatorHashes.length) :
    addMany msg hs = (msg, 0) := by
  induction hs with
  | nil => simp [addMany]
  | cons h t ih =>
    unfold addMany
    have hadd : msg.AddBlockLocatorHash h =
        .error (.messageError "MsgGetHeaders.AddBlockLocatorHash" tooManyAddStr) := by
      unfold MsgGetHeaders.AddBlockLocatorHash
      rw [if_pos (by omega)]
    rw [hadd]
    dsimp only
    exact ih

theorem addMany_append (a b : List Hash) (msg : MsgGetHeaders) :
    addMany msg (a ++ b) =
      ((addMany (addMany msg a).1 b).1,
        (addMany msg a).2 + (addMany (addMany msg a).1 b).2) := by
  induction a generalizing msg with
  | nil => simp [addMany]
  | cons h t ih =>
    rw [List.cons_append]
    simp only [addMany]
    cases hadd : msg.AddBlockLocatorHash h with
    | ok m1 =>
      dsimp only
      rw [ih m1]
      simp only [Prod.mk.injEq, true_and]
      omega
    | error e =>
      dsimp only
      exact ih msg

/-! ### Shape lemmas for failure classification -/

theorem readNBytes_shape (n : Nat) (s : List Nat) :
    (∃ p, readNBytes n s = .ok p) ∨ readNBytes n s = .error .streamFailure := by
  unfold readNBytes
  split_ifs with h
  · left; exact ⟨_, rfl⟩
  · right; rfl

theorem decodeCore_error_stream_of_le (pv c : Nat) (rest : List Nat)
    (e : CodecError) (hpv : pv < 4294967296) (hc64 : c < 18446744073709551616)
    (hc : c ≤ MaxBlockLocatorsPerMsg)
    (h : decodeCore (writeUint32 pv ++ writeVarInt c ++ rest) = .error e) :
    e = .streamFailure := by
  rw [decodeCore_header pv c rest hpv hc64, if_neg (by omega)] at h
  rcases readHashes_shape c rest with ⟨⟨hs, s3⟩, hh⟩ | hsf
  · rw [hh] at h
    dsimp only at h
    rcases readNBytes_shape HashLength s3 with ⟨⟨stop, s4⟩, hn⟩ | hn
    · rw [hn] at h; simp at h
    · rw [hn] at h
      exact (Except.error.inj h).symm
  · rw [hsf] at h
    exact (Except.error.inj h).symm

/-! ### Claim theorems -/

/-- C1: for every request whose locator-hash count is at most
`MaxBlockLocatorsPerMsg` (500), decoding the byte stream produced by
encoding it (into any receiver) yields a request field-wise equal to the
original — same `ProtocolVersion`, same locator hashes byte-for-byte in
order, same `HashStop` — with the stream fully consumed. -/
theorem roundtrip_encode_decode (m0 msg : MsgGetHeaders) (pver : Nat)
    (hwf : msg.WellFormed) :
    ∃ bytes, msg.VVSEncode pver = .ok bytes ∧
      m0.VVSDecode pver bytes = .ok (msg, []) := by
  obtain ⟨hpv, hc, hhs, hstop⟩ := hwf
  refine ⟨_, headersEncode_ok msg pver hc, ?_⟩
  rw [headersDecode_eq_core]
  rw [decodeCore_encode msg.ProtocolVersion msg.BlockLocatorHashes msg.HashStop
    hpv hc (fun h hh => (hhs h hh).1) hstop.1]

/-- C1 witness: the round trip at a concrete one-hash message. -/
theorem roundtrip_encode_decode_witness :
    sampleMsg.WellFormed ∧
    ∃ bytes, sampleMsg.VVSEncode 0 = .ok bytes ∧
      NewMsgGetHeaders.VVSDecode 0 bytes = .ok (sampleMsg, []) :=
  ⟨by decide, roundtrip_encode_decode NewMsgGetHeaders sampleMsg 0 (by decide)⟩

/-- C4: decoding any strict prefix of a valid encoding fails with the
`streamFailure` (I/O) error; in the embedding the error outcome carries no
message value, so no partially-populated result is observable — mirroring
the contract that the partial result is discarded on failure.  (Every hash
appended during the loop was fully read; the in-progress hash of a failed
read is never appended.) -/
theorem decode_truncated_stream (m0 msg : MsgGetHeaders) (pver k : Nat)
    (bytes : List Nat) (hwf : msg.WellFormed)
    (henc : msg.VVSEncode pver = .ok bytes) (hk : k < bytes.length) :
    m0.VVSDecode pver (bytes.take k) = .error .streamFailure := by
  obtain ⟨hpv, hc, hhs, hstop⟩ := hwf
  have hb := headersEncode_ok msg pver hc
  rw [henc] at hb
  have hbytes := Except.ok.inj hb
  subst hbytes
  rw [headersDecode_eq_core]
  rw [decodeCore_take_strict msg.ProtocolVersion msg.BlockLocatorHashes
    msg.HashStop k hpv hc (fun h hh => (hhs h hh).1) hstop.1 hk]
  simp [renameMsgErr]

/-- C4 witness: a concrete 10-byte truncation of the sample encoding. -/
theorem decode_truncated_stream_witness :
    sampleMsg.WellFormed ∧ sampleMsg.VVSEncode 0 = .ok sampleBytes ∧
    10 < sampleBytes.length ∧
    NewMsgGetHeaders.VVSDecode 0 (sampleBytes.take 10) =
      .error .streamFailure :=
  ⟨by decide, by rfl, by decide,
    decode_truncated_stream NewMsgGetHeaders sampleMsg 0 10 sampleBytes
      (by decide) (by rfl) (by decide)⟩

/-- C7: a request with zero locator hashes and an all-zero stop hash
encodes to exactly 37 bytes — the 4-byte version, the single CompactSize
byte `0x00` and the 32 zero bytes of the stop hash — and those bytes decode
back to the same empty-locator, zero-stop request. -/
theorem empty_message_encoding (pv pver : Nat) (m0 : MsgGetHeaders)
    (hpv : pv < 4294967296) :
    (MsgGetHeaders.mk pv [] zeroHash).VVSEncode pver =
      .ok (writeUint32 pv ++ 0 :: zeroHash) ∧
    (writeUint32 pv ++ 0 :: zeroHash).length = 37 ∧
    m0.VVSDecode pver (writeUint32 pv ++ 0 :: zeroHash) =
      .ok (MsgGetHeaders.mk pv [] zeroHash, []) := by
  have hshape : writeUint32 pv ++
      writeVarInt (MsgGetHeaders.mk pv [] zeroHash).BlockLocatorHashes.length ++
      (MsgGetHeaders.mk pv [] zeroHash).BlockLocatorHashes.flatten ++
      (MsgGetHeaders.mk pv [] zeroHash).HashStop =
      writeUint32 pv ++ 0 :: zeroHash := by
    simp [writeVarInt]
  refine ⟨?_, ?_, ?_⟩
  · have henc := headersEncode_ok (MsgGetHeaders.mk pv [] zeroHash)
      pver (by simp [MaxBlockLocatorsPerMsg])
    rw [hshape] at henc
    exact henc
  · simp [writeUint32, leBytes_length, zeroHash, HashLength]
  · rw [headersDecode_eq_core]
    have hcore := decodeCore_encode pv [] zeroHash hpv
      (by simp [MaxBlockLocatorsPerMsg]) (by simp) (by simp [zeroHash])
    rw [show writeUint32 pv ++ writeVarInt ([] : List Hash).length ++
        ([] : List Hash).flatten ++ zeroHash = writeUint32 pv ++ 0 :: zeroHash
      from by simp [writeVarInt]] at hcore
    rw [hcore]

/-- C7 witness: the empty message at protocol version 0. -/
theorem empty_message_encoding_witness :
    (0 : Nat) < 4294967296 ∧
    ((MsgGetHeaders.mk 0 [] zeroHash).VVSEncode 0 =
        .ok (writeUint32 0 ++ 0 :: zeroHash) ∧
      (writeUint32 0 ++ 0 :: zeroHash).length = 37 ∧
      NewMsgGetHeaders.VVSDecode 0 (writeUint32 0 ++ 0 :: zeroHash) =
        .ok (MsgGetHeaders.mk 0 [] zeroHash, [])) :=
  ⟨by decide, empty_message_encoding 0 0 NewMsgGetHeaders (by decide)⟩

/-- C9: once the declared count is known to keep the total within
`MaxBlockLocatorsPerMsg`, the decode loop never hits the error branch of
the in-loop `AddBlockLocatorHash` bound check — for both variants it either
succeeds or propagates a stream failure. -/
theorem decode_loop_add_never_fails (n : Nat) (s : List Nat)
    (mh : MsgGetHeaders) (mb : MsgGetBlocks)
    (hbh : mh.BlockLocatorHashes.length + n ≤ MaxBlockLocatorsPerMsg)
    (hbb : mb.BlockLocatorHashes.length + n ≤ MaxBlockLocatorsPerMsg) :
    ((∃ p, MsgGetHeaders.decodeLoop mh n s = .ok p) ∨
      MsgGetHeaders.decodeLoop mh n s = .error .streamFailure) ∧
    ((∃ p, MsgGetBlocks.decodeLoop mb n s = .ok p) ∨
      MsgGetBlocks.decodeLoop mb n s = .error .streamFailure) := by
  constructor
  · rw [headersDecodeLoop_eq n mh s hbh]
    rcases readHashes_shape n s with ⟨⟨hs, r⟩, hp⟩ | hsf
    · left; rw [hp]; exact ⟨_, rfl⟩
    · right; rw [hsf]
  · rw [blocksDecodeLoop_eq n mb s hbb]
    rcases readHashes_shape n s with ⟨⟨hs, r⟩, hp⟩ | hsf
    · left; rw [hp]; exact ⟨_, rfl⟩
    · right; rw [hsf]

/-- C9 witness: a maximal-count loop on an empty stream fails only with a
stream failure. -/
theorem decode_loop_add_never_fails_witness :
    NewMsgGetHeaders.BlockLocatorHashes.length + MaxBlockLocatorsPerMsg ≤
      MaxBlockLocatorsPerMsg ∧
    emptyMsgB.BlockLocatorHashes.length + MaxBlockLocatorsPerMsg ≤
      MaxBlockLocatorsPerMsg ∧
    (((∃ p, MsgGetHeaders.decodeLoop NewMsgGetHeaders MaxBlockLocatorsPerMsg [] =
          .ok p) ∨
        MsgGetHeaders.decodeLoop NewMsgGetHeaders MaxBlockLocatorsPerMsg [] =
          .error .streamFailure) ∧
      ((∃ p, MsgGetBlocks.decodeLoop emptyMsgB MaxBlockLocatorsPerMsg [] = .ok p) ∨
        MsgGetBlocks.decodeLoop emptyMsgB MaxBlockLocatorsPerMsg [] =
          .error .streamFailure)) :=
  ⟨by decide, by decide,
    decode_loop_add_never_fails MaxBlockLocatorsPerMsg [] NewMsgGetHeaders
      emptyMsgB (by decide) (by decide)⟩

/-- C10: a successful decode is insensitive to the receiver's prior
contents — in fact the whole decode outcome (success value, remaining
stream and error alike) is independent of the receiver, for both variants,
because every field of the result is overwritten from the stream. -/
theorem decode_receiver_independent (m0 m1 : MsgGetHeaders)
    (b0 b1 : MsgGetBlocks) (pver : Nat) (s : List Nat) :
    m0.VVSDecode pver s = m1.VVSDecode pver s ∧
    b0.VVSDecode pver s = b1.VVSDecode pver s := by
  constructor
  · rw [headersDecode_eq_core, headersDecode_eq_core]
  · rw [blocksDecode_eq_core, blocksDecode_eq_core]

/-- C2: a stream declaring a CompactSize locator count above
`MaxBlockLocatorsPerMsg` makes both decoders fail with the count-check
protocol violation regardless of what follows the count — the remaining
stream is never read — while for a declared count within the bound the
decoders never raise any protocol violation (every failure is a stream
failure). -/
theorem decode_count_guard (pv c pver : Nat) (rest : List Nat)
    (m0 : MsgGetHeaders) (b0 : MsgGetBlocks)
    (hpv : pv < 4294967296) (hc64 : c < 18446744073709551616) :
    (MaxBlockLocatorsPerMsg < c →
      m0.VVSDecode pver (writeUint32 pv ++ writeVarInt c ++ rest) =
        .error (.messageError "MsgGetHeaders.VVSDecode" (tooManyCountStr c)) ∧
      b0.VVSDecode pver (writeUint32 pv ++ writeVarInt c ++ rest) =
        .error (.messageError "MsgGetBlocks.VVSDecode" (tooManyCountStr c))) ∧
    (c ≤ MaxBlockLocatorsPerMsg →
      ∀ e : CodecError,
        m0.VVSDecode pver (writeUint32 pv ++ writeVarInt c ++ rest) = .error e ∨
        b0.VVSDecode pver (writeUint32 pv ++ writeVarInt c ++ rest) = .error e →
        e = .streamFailure) := by
  have hcore := decodeCore_header pv c rest hpv hc64
  constructor
  · intro hc
    rw [if_pos (by omega)] at hcore
    constructor
    · rw [headersDecode_eq_core, hcore]
      simp [renameMsgErr]
    · rw [blocksDecode_eq_core, hcore]
      simp [renameMsgErr]
  · intro hc e hcase
    rcases hcase with hH | hB
    · rw [headersDecode_eq_core] at hH
      cases hd : decodeCore (writeUint32 pv ++ writeVarInt c ++ rest) with
      | error e1 =>
        rw [hd] at hH
        dsimp only at hH
        rw [decodeCore_error_stream_of_le pv c rest e1 hpv hc64 hc hd] at hH
        exact (Except.error.inj hH).symm
      | ok p =>
        obtain ⟨⟨pv1, hs1, st1⟩, r1⟩ := p
        rw [hd] at hH
        simp at hH
    · rw [blocksDecode_eq_core] at hB
      cases hd : decodeCore (writeUint32 pv ++ writeVarInt c ++ rest) with
      | error e1 =>
        rw [hd] at hB
        dsimp only at hB
        rw [decodeCore_error_stream_of_le pv c rest e1 hpv hc64 hc hd] at hB
        exact (Except.error.inj hB).symm
      | ok p =>
        obtain ⟨⟨pv1, hs1, st1⟩, r1⟩ := p
        rw [hd] at hB
        simp at hB

/-- C2 witness: a declared count of 501 is rejected by the count check. -/
theorem decode_count_guard_witness :
    (0 : Nat) < 4294967296 ∧ (501 : Nat) < 18446744073709551616 ∧
    ((MaxBlockLocatorsPerMsg < 501 →
        NewMsgGetHeaders.VVSDecode 0 (writeUint32 0 ++ writeVarInt 501 ++ []) =
          .error (.messageError "MsgGetHeaders.VVSDecode" (tooManyCountStr 501)) ∧
        emptyMsgB.VVSDecode 0 (writeUint32 0 ++ writeVarInt 501 ++ []) =
          .error (.messageError "MsgGetBlocks.VVSDecode" (tooManyCountStr 501))) ∧
      (501 ≤ MaxBlockLocatorsPerMsg →
        ∀ e : CodecError,
          NewMsgGetHeaders.VVSDecode 0
              (writeUint32 0 ++ writeVarInt 501 ++ []) = .error e ∨
          emptyMsgB.VVSDecode 0
              (writeUint32 0 ++ writeVarInt 501 ++ []) = .error e →
          e = .streamFailure)) :=
  ⟨by decide, by decide,
    decode_count_guard 0 501 0 [] NewMsgGetHeaders emptyMsgB
      (by decide) (by decide)⟩

/-- C3: `AddBlockLocatorHash` on a full request (length exactly 500) fails
with the protocol violation and, the embedding being state-passing, returns
no altered request; below the bound it appends exactly the given hash.  501
calls on an empty request succeed exactly 500 times — all of the first 500 —
and leave the sequence at length 500. -/
theorem add_bound_enforcement :
    (∀ (msg : MsgGetHeaders) (h : Hash),
        msg.BlockLocatorHashes.length = MaxBlockLocatorsPerMsg →
        msg.AddBlockLocatorHash h =
          .error (.messageError "MsgGetHeaders.AddBlockLocatorHash"
            tooManyAddStr)) ∧
    (∀ (msg : MsgGetHeaders) (h : Hash),
        msg.BlockLocatorHashes.length < MaxBlockLocatorsPerMsg →
        msg.AddBlockLocatorHash h =
          .ok { msg with
            BlockLocatorHashes := msg.BlockLocatorHashes ++ [h] }) ∧
    (∀ (msg : MsgGetBlocks) (h : Hash),
        msg.BlockLocatorHashes.length = MaxBlockLocatorsPerMsg →
        msg.AddBlockLocatorHash h =
          .error (.messageError "MsgGetBlocks.AddBlockLocatorHash"
            tooManyAddStr)) ∧
    (∀ (msg : MsgGetBlocks) (h : Hash),
        msg.BlockLocatorHashes.length < MaxBlockLocatorsPerMsg →
        msg.AddBlockLocatorHash h =
          .ok { msg with
            BlockLocatorHashes := msg.BlockLocatorHashes ++ [h] }) ∧
    (∀ (msg : MsgGetHeaders) (hs : List Hash),
        msg.BlockLocatorHashes = [] →
        hs.length = MaxBlockLocatorsPerMsg + 1 →
        (addMany msg (hs.take MaxBlockLocatorsPerMsg)).2 =
          MaxBlockLocatorsPerMsg ∧
        (addMany msg hs).2 = MaxBlockLocatorsPerMsg ∧
        (addMany msg hs).1.BlockLocatorHashes.length =
          MaxBlockLocatorsPerMsg) := by
  refine ⟨?_, ?_, ?_, ?_, ?_⟩
  · intro msg h hlen
    unfold MsgGetHeaders.AddBlockLocatorHash
    rw [if_pos (by omega)]
  · intro msg h hlen
    unfold MsgGetHeaders.AddBlockLocatorHash
    rw [if_neg (by omega)]
  · intro msg h hlen
    unfold MsgGetBlocks.AddBlockLocatorHash
    rw [if_pos (by omega)]
  · intro msg h hlen
    unfold MsgGetBlocks.AddBlockLocatorHash
    rw [if_neg (by omega)]
  · intro msg hs hempty hlen
    have htake : (hs.take MaxBlockLocatorsPerMsg).length =
        MaxBlockLocatorsPerMsg := by
      rw [List.length_take]; omega
    have h1 := addMany_all_ok (hs.take MaxBlockLocatorsPerMsg) msg
      (by rw [hempty]; simp [htake])
    have hXlen : ({ msg with BlockLocatorHashes :=
        msg.BlockLocatorHashes ++ hs.take MaxBlockLocatorsPerMsg } :
        MsgGetHeaders).BlockLocatorHashes.length = MaxBlockLocatorsPerMsg := by
      simp [hempty, htake]
    have hnone := addMany_none (hs.drop MaxBlockLocatorsPerMsg)
      { msg with BlockLocatorHashes :=
          msg.BlockLocatorHashes ++ hs.take MaxBlockLocatorsPerMsg }
      (le_of_eq hXlen.symm)
    have happ := addMany_append (hs.take MaxBlockLocatorsPerMsg)
      (hs.drop MaxBlockLocatorsPerMsg) msg
    rw [List.take_append_drop] at happ
    rw [h1] at happ
    dsimp only at happ
    rw [hnone] at happ
    dsimp only at happ
    refine ⟨?_, ?_, ?_⟩
    · rw [h1, htake]
    · rw [happ, htake]
      simp
    · rw [happ]
      exact hXlen

/-- C3 witness: the mutator fails at exactly the configured maximum, and
501 calls on the empty message leave 500 hashes. -/
theorem add_bound_enforcement_witness :
    sampleFull.BlockLocatorHashes.length = MaxBlockLocatorsPerMsg ∧
    sampleFull.AddBlockLocatorHash sampleHash2 =
      .error (.messageError "MsgGetHeaders.AddBlockLocatorHash"
        tooManyAddStr) ∧
    NewMsgGetHeaders.BlockLocatorHashes = [] ∧
    (List.replicate (MaxBlockLocatorsPerMsg + 1) sampleHash1 :
      List Hash).length = MaxBlockLocatorsPerMsg + 1 ∧
    ((addMany NewMsgGetHeaders
        ((List.replicate (MaxBlockLocatorsPerMsg + 1) sampleHash1).take
          MaxBlockLocatorsPerMsg)).2 = MaxBlockLocatorsPerMsg ∧
      (addMany NewMsgGetHeaders
        (List.replicate (MaxBlockLocatorsPerMsg + 1) sampleHash1)).2 =
        MaxBlockLocatorsPerMsg ∧
      (addMany NewMsgGetHeaders
        (List.replicate (MaxBlockLocatorsPerMsg + 1)
          sampleHash1)).1.BlockLocatorHashes.length =
        MaxBlockLocatorsPerMsg) :=
  ⟨by simp [sampleFull],
    add_bound_enforcement.1 sampleFull sampleHash2 (by simp [sampleFull]),
    rfl, by simp,
    add_bound_enforcement.2.2.2.2 NewMsgGetHeaders
      (List.replicate (MaxBlockLocatorsPerMsg + 1) sampleHash1) rfl
      (by simp)⟩

/-- C5: `MaxPayloadLength` equals 4 (version) plus the CompactSize width of
the maximum count plus 500 × 32 plus 32 — i.e. 16039 — for both variants,
and every successful encoding fits within it. -/
theorem maxPayloadLength_bound (pver : Nat) :
    (MsgGetHeaders.MaxPayloadLength pver =
      4 + (writeVarInt MaxBlockLocatorsPerMsg).length +
        MaxBlockLocatorsPerMsg * HashLength + HashLength) ∧
    MsgGetHeaders.MaxPayloadLength pver = 16039 ∧
    MsgGetBlocks.MaxPayloadLength pver = 16039 ∧
    (∀ (msg : MsgGetHeaders) (bytes : List Nat), msg.WellFormed →
      msg.VVSEncode pver = .ok bytes →
      bytes.length ≤ MsgGetHeaders.MaxPayloadLength pver) ∧
    (∀ (msg : MsgGetBlocks) (bytes : List Nat), msg.WellFormed →
      msg.VVSEncode pver = .ok bytes →
      bytes.length ≤ MsgGetBlocks.MaxPayloadLength pver) := by
  refine ⟨rfl, by rfl, by rfl, ?_, ?_⟩
  · intro msg bytes hwf henc
    obtain ⟨hpv, hc, hhs, hstop⟩ := hwf
    have hb := headersEncode_ok msg pver hc
    rw [henc] at hb
    have hbytes := Except.ok.inj hb
    subst hbytes
    have hfl := flatten_length_of msg.BlockLocatorHashes
      (fun h hh => (hhs h hh).1)
    have hvl := writeVarInt_length_le msg.BlockLocatorHashes.length
      (by simpa [MaxBlockLocatorsPerMsg] using hc)
    have hwl : (writeUint32 msg.ProtocolVersion).length = 4 :=
      leBytes_length 4 _
    simp only [List.length_append, hwl, hfl, hstop.1,
      MsgGetHeaders.MaxPayloadLength]
    simp only [HashLength, MaxBlockLocatorsPerMsg, MaxVarIntPayload] at *
    have hv500 : (writeVarInt 500).length = 3 := by decide
    omega
  · intro msg bytes hwf henc
    obtain ⟨hpv, hc, hhs, hstop⟩ := hwf
    have hb := blocksEncode_ok msg pver hc
    rw [henc] at hb
    have hbytes := Except.ok.inj hb
    subst hbytes
    have hfl := flatten_length_of msg.BlockLocatorHashes
      (fun h hh => (hhs h hh).1)
    have hvl := writeVarInt_length_le msg.BlockLocatorHashes.length
      (by simpa [MaxBlockLocatorsPerMsg] using hc)
    have hwl : (writeUint32 msg.ProtocolVersion).length = 4 :=
      leBytes_length 4 _
    simp only [List.length_append, hwl, hfl, hstop.1,
      MsgGetBlocks.MaxPayloadLength]
    simp only [HashLength, MaxBlockLocatorsPerMsg, MaxVarIntPayload] at *
    have hv500 : (writeVarInt 500).length = 3 := by decide
    omega

/-- C5 witness: the sample encoding fits within the payload bound. -/
theorem maxPayloadLength_bound_witness :
    sampleMsg.WellFormed ∧ sampleMsg.VVSEncode 0 = .ok sampleBytes ∧
    sampleBytes.length ≤ MsgGetHeaders.MaxPayloadLength 0 :=
  ⟨by decide, by rfl,
    (maxPayloadLength_bound 0).2.2.2.1 sampleMsg sampleBytes
      (by decide) (by rfl)⟩

/-- C6: construction, a successful `AddBlockLocatorHash` (a failed call
returns no altered request in the embedding) and a successful decode all
keep the locator count within `MaxBlockLocatorsPerMsg`. -/
theorem locator_count_invariant :
    NewMsgGetHeaders.BlockLocatorHashes.length ≤ MaxBlockLocatorsPerMsg ∧
    (∀ (msg m1 : MsgGetHeaders) (h : Hash),
        msg.AddBlockLocatorHash h = .ok m1 →
        m1.BlockLocatorHashes.length ≤ MaxBlockLocatorsPerMsg) ∧
    (∀ (m0 m1 : MsgGetHeaders) (pver : Nat) (s r : List Nat),
        m0.VVSDecode pver s = .ok (m1, r) →
        m1.BlockLocatorHashes.length ≤ MaxBlockLocatorsPerMsg) := by
  refine ⟨by simp [NewMsgGetHeaders], ?_, ?_⟩
  · intro msg m1 h hadd
    unfold MsgGetHeaders.AddBlockLocatorHash at hadd
    by_cases hb : msg.BlockLocatorHashes.length + 1 > MaxBlockLocatorsPerMsg
    · rw [if_pos hb] at hadd
      exact absurd hadd (by simp)
    · rw [if_neg hb] at hadd
      have hm := Except.ok.inj hadd
      rw [← hm]
      simp
      omega
  · intro m0 m1 pver s r hdec
    rw [headersDecode_eq_core] at hdec
    cases hd : decodeCore s with
    | error e => rw [hd] at hdec; simp at hdec
    | ok p =>
      obtain ⟨⟨pv, hs, st⟩, r1⟩ := p
      rw [hd] at hdec
      dsimp only at hdec
      simp only [Except.ok.injEq, Prod.mk.injEq] at hdec
      obtain ⟨hm, hr⟩ := hdec
      rw [← hm]
      exact decodeCore_ok_count s pv hs st r1 hd

/-- C6 witness: the invariant at a concrete append and a concrete decode. -/
theorem locator_count_invariant_witness :
    sampleMsg.AddBlockLocatorHash sampleHash2 =
      .ok { sampleMsg with
        BlockLocatorHashes := sampleMsg.BlockLocatorHashes ++ [sampleHash2] } ∧
    ({ sampleMsg with
        BlockLocatorHashes := sampleMsg.BlockLocatorHashes ++ [sampleHash2] } :
      MsgGetHeaders).BlockLocatorHashes.length ≤ MaxBlockLocatorsPerMsg ∧
    NewMsgGetHeaders.VVSDecode 0 sampleBytes = .ok (sampleMsg, []) ∧
    sampleMsg.BlockLocatorHashes.length ≤ MaxBlockLocatorsPerMsg :=
  ⟨by rfl,
    locator_count_invariant.2.1 sampleMsg _ sampleHash2 (by rfl),
    by rfl,
    locator_count_invariant.2.2 NewMsgGetHeaders sampleMsg 0 sampleBytes []
      (by rfl)⟩

/-- C8: requests with equal fields encode to the same observable byte
stream under both variants (both encoders fail together when the count
bound is violated), and for any byte stream and any receivers the two
decoders produce field-wise identical models or both fail — the wire layout
is shared; only the reported command names differ. -/
theorem variants_wire_equivalent (mh : MsgGetHeaders) (mb : MsgGetBlocks)
    (pver : Nat)
    (h1 : mh.ProtocolVersion = mb.ProtocolVersion)
    (h2 : mh.BlockLocatorHashes = mb.BlockLocatorHashes)
    (h3 : mh.HashStop = mb.HashStop) :
    obsBytes (mh.VVSEncode pver) = obsBytes (mb.VVSEncode pver) ∧
    ∀ (s : List Nat) (h0 : MsgGetHeaders) (b0 : MsgGetBlocks),
      obsHeaders (h0.VVSDecode pver s) = obsBlocks (b0.VVSDecode pver s) := by
  constructor
  · unfold MsgGetHeaders.VVSEncode MsgGetBlocks.VVSEncode
    dsimp only
    rw [h1, h2, h3]
    by_cases hc : mb.BlockLocatorHashes.length > MaxBlockLocatorsPerMsg
    · rw [if_pos hc, if_pos hc]
      rfl
    · rw [if_neg hc, if_neg hc]
  · intro s h0 b0
    rw [headersDecode_eq_core, blocksDecode_eq_core]
    cases hd : decodeCore s with
    | error e => rfl
    | ok p =>
      obtain ⟨⟨pv, hs, st⟩, r1⟩ := p
      rfl

/-- C8 witness: the equivalence at concrete equal-field messages. -/
theorem variants_wire_equivalent_witness :
    sampleMsg.ProtocolVersion = sampleMsgB.ProtocolVersion ∧
    sampleMsg.BlockLocatorHashes = sampleMsgB.BlockLocatorHashes ∧
    sampleMsg.HashStop = sampleMsgB.HashStop ∧
    (obsBytes (sampleMsg.VVSEncode 0) = obsBytes (sampleMsgB.VVSEncode 0) ∧
      ∀ (s : List Nat) (h0 : MsgGetHeaders) (b0 : MsgGetBlocks),
        obsHeaders (h0.VVSDecode 0 s) = obsBlocks (b0.VVSDecode 0 s)) :=
  ⟨rfl, rfl, rfl, variants_wire_equivalent sampleMsg sampleMsgB 0 rfl rfl rfl⟩

end Protos
